import Mathlib

/-!
Verification development for the PeopleWiki application (`src/app.py`).

The Python source is shallowly embedded: pure date arithmetic becomes Lean
functions on a calendar-date structure, the SQLAlchemy-backed store becomes
an explicit record of lists, and each Flask handler's core mutation becomes
a state-passing function.  Machine-level concerns that cannot change any of
the verified properties (HTML rendering, HTTP transport, Cloudinary upload)
are not modelled; where a Python library call has well-defined semantics
(`datetime.date`, SQL `ILIKE`, `calendar.isleap`) those semantics are
translated directly.
-/

namespace PeopleWiki

/-! ### Calendar arithmetic (`_format_birthday`, app.py lines 762-784)

`datetime.date` values are represented by year/month/day triples; comparison
and subtraction of dates in Python are chronological, which we realise with
the day ordinal `toDays` (days since a fixed origin in the proleptic
Gregorian calendar, the calendar `datetime` implements).  Python's
`date.MINYEAR`/`MAXYEAR` range restriction is not modelled. -/

/-- Gregorian leap-year test, as Python `calendar.isleap`. -/
def isleap (y : Nat) : Bool := y % 4 == 0 && (y % 100 != 0 || y % 400 == 0)

/-- `1` in a leap year, `0` otherwise. -/
def leapBit (y : Nat) : Nat := if isleap y then 1 else 0

/-- Number of days of month `m` in year `y` (the validity bound that
`datetime.date` enforces). -/
def daysInMonth (y m : Nat) : Nat :=
  if m = 2 then 28 + leapBit y
  else if m = 4 ∨ m = 6 ∨ m = 9 ∨ m = 11 then 30
  else 31

/-- Number of days of month `m` in the most generous year (a leap year):
the months in which a month/day pair can be a real calendar date. -/
def daysInMonthMax (m : Nat) : Nat :=
  if m = 2 then 29
  else if m = 4 ∨ m = 6 ∨ m = 9 ∨ m = 11 then 30
  else 31

/-- Days of year `y` that fall before month `m` (0 for January). -/
def dbm (y : Nat) : Nat → Nat
  | 0 => 0
  | m + 1 => dbm y m + (if m = 0 then 0 else daysInMonth y m)

/-- Number of leap years strictly before year `y`. -/
def leapsBefore (y : Nat) : Nat := ((y - 1) / 4 - (y - 1) / 100) + (y - 1) / 400

/-- A calendar date as Python's `datetime.date` triple. -/
structure SDate where
  year : Nat
  month : Nat
  day : Nat
  deriving DecidableEq, Repr

/-- The validity condition `datetime.date(year, month, day)` enforces
(minus the year range, which is not modelled). -/
def ValidDate (t : SDate) : Prop :=
  1 ≤ t.year ∧ 1 ≤ t.month ∧ t.month ≤ 12 ∧ 1 ≤ t.day ∧ t.day ≤ daysInMonth t.year t.month

instance (t : SDate) : Decidable (ValidDate t) := by
  unfold ValidDate; infer_instance

/-- Day ordinal of a date: days since the proleptic origin.  Differences of
ordinals are exactly Python's `(a - b).days`, and `a < b` on dates is
`toDays a < toDays b`. -/
def toDays (t : SDate) : Nat :=
  365 * (t.year - 1) + leapsBefore t.year + dbm t.year t.month + (t.day - 1)

/-- `today.replace(month=m, day=d)` for Python ints `m`, `d`: `none` is the
`ValueError` that `_format_birthday` catches. -/
def replaceMD (t : SDate) (m d : Int) : Option SDate :=
  if 1 ≤ m ∧ m ≤ 12 ∧ 1 ≤ d ∧ d ≤ (daysInMonth t.year m.toNat : Int) then
    some ⟨t.year, m.toNat, d.toNat⟩
  else none

/-- `nb.replace(year=yr)`: `none` is the `ValueError` raised when the
month/day pair does not exist in year `yr`. -/
def replaceY (nb : SDate) (yr : Nat) : Option SDate :=
  if nb.day ≤ daysInMonth yr nb.month then some ⟨yr, nb.month, nb.day⟩ else none

/-- The first `next_bd` candidate of `_format_birthday` (app.py lines
770-774): the pair placed in `today`'s year, with the February-29
substitution when that year is not leap. -/
def nextCandidate (today : SDate) (m d : Int) : Option SDate :=
  if m = 2 ∧ d = 29 ∧ ¬ isleap today.year then
    some ⟨today.year, 3, 1⟩
  else replaceMD today m d

/-- The `if next_bd < today` adjustment of `_format_birthday` (app.py lines
775-780): a candidate strictly before `today` is advanced to the next year,
again substituting March 1 when that year is not leap. -/
def advanceIfPassed (today : SDate) (m d : Int) (nb : SDate) : Option SDate :=
  if toDays nb < toDays today then
    if m = 2 ∧ d = 29 ∧ ¬ isleap (today.year + 1) then
      some ⟨today.year + 1, 3, 1⟩
    else replaceY nb (today.year + 1)
  else some nb

/-- The `next_bd` date computed by `_format_birthday` (app.py lines 768-780)
for the parsed month `m` and day `d`, given `today`; `none` when Python
would raise `ValueError` (caught at line 783). -/
def nextBD (today : SDate) (m d : Int) : Option SDate :=
  match nextCandidate today m d with
  | none => none
  | some nb => advanceIfPassed today m d nb

/-- `(next_bd - today).days` as computed at app.py line 781. -/
def dayDiff (a b : SDate) : Int := (toDays a : Int) - (toDays b : Int)

/-- The `days` component of `_format_birthday`'s result, for an already
parsed month/day pair: `none` when the computation degrades (ValueError). -/
def daysUntilNextMD (today : SDate) (m d : Int) : Option Int :=
  (nextBD today m d).map fun nb => dayDiff nb today

/-- A month/day pair that is a real calendar date in at least one year:
this is what "parses to a valid month/day pair" denotes. -/
def validPair (m d : Int) : Prop :=
  1 ≤ m ∧ m ≤ 12 ∧ 1 ≤ d ∧ d ≤ (daysInMonthMax m.toNat : Int)

instance (m d : Int) : Decidable (validPair m d) := by
  unfold validPair; infer_instance

/-! #### String parsing

`_format_birthday` slices `bd[5:7]` and `bd[8:10]` and applies `int`.
Birthday strings are produced by `<input type="date">` in zero-padded
`YYYY-MM-DD` form; the slicing/`int` step is modelled for digit slices (the
only accepted shapes apart from Python's tolerance for surrounding
whitespace and signs, which no stored birthday contains), everything else
mapping to `none` exactly as the caught `ValueError` does. -/

/-- `int` on a nonempty all-digit string. -/
def pyIntDigits (cs : List Char) : Option Nat :=
  if cs ≠ [] ∧ cs.all Char.isDigit then
    some (cs.foldl (fun a c => 10 * a + (c.toNat - 48)) 0)
  else none

/-- `int(bd[5:7]), int(bd[8:10])`, or `none` for the caught `ValueError`. -/
def parseMD (s : String) : Option (Int × Int) :=
  let cs := s.toList
  match pyIntDigits ((cs.drop 5).take 2), pyIntDigits ((cs.drop 8).take 2) with
  | some m, some d => some ((m : Int), (d : Int))
  | _, _ => none

/-- The `days_until_next` component of `_format_birthday bd` for a stored
birthday field (`None` ↦ `none`): `none` when missing or unparseable. -/
def formatBirthdayDays (today : SDate) (bd : Option String) : Option Int :=
  match bd with
  | none => none
  | some s =>
    match parseMD s with
    | none => none
    | some (m, d) => daysUntilNextMD today m d

/-! ### Data model (app.py lines 34-91)

Database rows become records; `DateTime` timestamps become abstract `Nat`
instants ("now" is passed in explicitly wherever a handler reads the
clock).  The persisted state is the triple of tables. -/

structure Person where
  id : Nat
  name : String
  organization : Option String
  met_at : Option String
  birthday : Option String
  notes : Option String
  twitter : Option String
  instagram : Option String
  facebook : Option String
  linkedin : Option String
  marital_status : Option String
  has_children : Option String
  has_pets : Option String
  created_at : Nat
  updated_at : Nat
  deriving DecidableEq, Repr

structure Event where
  id : Nat
  person_id : Nat
  event_date : String
  content : String
  image_url : Option String
  created_at : Nat
  deriving DecidableEq, Repr

structure FamilyMember where
  id : Nat
  person_id : Nat
  name : String
  relationship : String
  birthday : Option String
  linked_person_id : Option Nat
  created_at : Nat
  deriving DecidableEq, Repr

structure St where
  people : List Person
  events : List Event
  fams : List FamilyMember
  deriving DecidableEq, Repr

/-- Python truthiness of a nullable string column (`None` and `""` are falsy). -/
def strTruthy : Option String → Bool
  | none => false
  | some s => s != ""

/-- Python truthiness of a nullable integer id column (`None` and `0` are
falsy; in the database these ids are auto-increment keys starting at 1). -/
def idTruthy : Option Nat → Bool
  | none => false
  | some n => n != 0

/-- Python `str.strip()`: remove leading and trailing whitespace.
(Executable by kernel reduction, unlike `String.trim`.) -/
def pyStrip (s : String) : String :=
  String.mk (((s.data.dropWhile Char.isWhitespace).reverse.dropWhile
    Char.isWhitespace).reverse)

/-- `request.form.get(k, "").strip() or None`. -/
def strOrNone (s : String) : Option String :=
  if pyStrip s = "" then none else some (pyStrip s)

/-- `db.session.get(Person, pid)`: primary-key lookup. -/
def lookupPerson (people : List Person) (pid : Nat) : Option Person :=
  people.find? fun p => p.id == pid

/-- The family-display resolution of the `detail` view (app.py lines
1144-1151): the shown name and birthday for a family member, resolving a
live link when `fm.linked_person_id` is truthy and the linked row exists. -/
def resolveDisplay (people : List Person) (fm : FamilyMember) : String × Option String :=
  match fm.linked_person_id with
  | none => (fm.name, fm.birthday)
  | some pid =>
    if pid = 0 then (fm.name, fm.birthday)
    else
      match lookupPerson people pid with
      | none => (fm.name, fm.birthday)
      | some p =>
        (p.name, if ¬ strTruthy fm.birthday ∧ strTruthy p.birthday then p.birthday else fm.birthday)

/-- The fields of the `add` / `_form` person form (absent keys read `""`). -/
structure PersonForm where
  name : String
  organization : String
  met_at : String
  birthday : String
  marital_status : String
  has_children : String
  has_pets : String
  notes : String
  deriving Repr

/-- The `add` POST handler (app.py lines 959-987): `none` is the
"name required" validation failure (nothing persisted); otherwise the new
`Person` row is inserted with fresh id `newPid`, and if a truthy
`link_family_id` resolves to a stored `FamilyMember` whose
`linked_person_id` is falsy, that member is linked to the new person. -/
def addPerson (st : St) (newPid : Nat) (f : PersonForm) (linkFamilyId : Option Nat)
    (now : Nat) : Option St :=
  if pyStrip f.name = "" then none
  else
    let person : Person :=
      { id := newPid, name := pyStrip f.name,
        organization := some (pyStrip f.organization), met_at := some (pyStrip f.met_at),
        birthday := strOrNone f.birthday, marital_status := strOrNone f.marital_status,
        has_children := strOrNone f.has_children, has_pets := strOrNone f.has_pets,
        notes := some (pyStrip f.notes),
        twitter := none, instagram := none, facebook := none, linkedin := none,
        created_at := now, updated_at := now }
    let st1 : St := { st with people := st.people ++ [person] }
    match linkFamilyId with
    | none => some st1
    | some fid =>
      match st1.fams.find? (fun fm => fm.id == fid) with
      | none => some st1
      | some fm =>
        if idTruthy fm.linked_person_id then some st1
        else some { st1 with
          fams := st1.fams.map fun g =>
            if g.id == fid then { g with linked_person_id := some newPid } else g }

/-- The fields of the inline `update_person` form. -/
structure UpdateForm where
  name : String
  organization : String
  met_at : String
  birthday : String
  notes : String
  twitter : String
  instagram : String
  facebook : String
  linkedin : String
  marital_status : String
  has_children : String
  has_pets : String
  deriving Repr

/-- The field assignments of `update_person` (app.py lines 1361-1382):
the name is replaced only when the submitted name is non-empty after
stripping; every other field is overwritten; `updated_at` is set to now. -/
def applyUpdate (p : Person) (f : UpdateForm) (now : Nat) : Person :=
  { p with
    name := if pyStrip f.name ≠ "" then pyStrip f.name else p.name,
    organization := some (pyStrip f.organization),
    met_at := some (pyStrip f.met_at),
    birthday := strOrNone f.birthday,
    notes := some (pyStrip f.notes),
    twitter := strOrNone f.twitter,
    instagram := strOrNone f.instagram,
    facebook := strOrNone f.facebook,
    linkedin := strOrNone f.linkedin,
    marital_status := strOrNone f.marital_status,
    has_children := strOrNone f.has_children,
    has_pets := strOrNone f.has_pets,
    updated_at := now }

/-- The `update_person` POST handler (app.py lines 1354-1384): `none` is
the 404 response; on success the row with primary key `pid` is updated. -/
def update_person (st : St) (pid : Nat) (f : UpdateForm) (now : Nat) : Option St :=
  match lookupPerson st.people pid with
  | none => none
  | some _ =>
    some { st with people := st.people.map fun p => if p.id == pid then applyUpdate p f now else p }

/-- The `delete` / `delete_person` POST handlers (app.py lines 1345-1351,
1387-1394): removing a person cascades to its own events and family rows
(the `cascade="all, delete-orphan"` relationships on `person_id`); rows of
other persons — including those whose `linked_person_id` points at the
deleted person — are untouched.  Unknown ids are a no-op. -/
def deletePerson (st : St) (pid : Nat) : St :=
  match lookupPerson st.people pid with
  | none => st
  | some _ =>
    { people := st.people.filter fun p => p.id != pid,
      events := st.events.filter fun e => e.person_id != pid,
      fams := st.fams.filter fun fm => fm.person_id != pid }

/-- `person.updated_at = now` on the row with primary key `pid`. -/
def touchPerson (people : List Person) (pid : Nat) (now : Nat) : List Person :=
  people.map fun p => if p.id == pid then { p with updated_at := now } else p

/-- Outcome of the `add_family` POST handler. -/
inductive AddFamilyResult where
  | notFound
  | validationError
  | ok (st : St)
  deriving DecidableEq, Repr

/-- The `add_family` POST handler (app.py lines 1518-1546): 404 when the
owner does not exist; the "名前と続柄は必須です" validation failure when the
stripped name or relationship is empty (nothing persisted); otherwise the
row is inserted with the submitted relationship and `linked_person_id`
taken verbatim, and the owner's `updated_at` is set to now. -/
def add_family (st : St) (pid : Nat) (newFid : Nat) (nameF relF bdF : String)
    (linkedPersonId : Option Nat) (now : Nat) : AddFamilyResult :=
  match lookupPerson st.people pid with
  | none => .notFound
  | some _ =>
    if pyStrip nameF = "" ∨ pyStrip relF = "" then .validationError
    else
      let fm : FamilyMember :=
        { id := newFid, person_id := pid, name := pyStrip nameF, relationship := pyStrip relF,
          birthday := strOrNone bdF, linked_person_id := linkedPersonId, created_at := now }
      .ok { st with fams := st.fams ++ [fm], people := touchPerson st.people pid now }

/-- The closed relationship vocabulary offered by the `_family_form`
dropdown (app.py lines 1570-1576): 配偶者 spouse, 子供 child, 父親 father,
母親 mother, 兄弟姉妹 sibling, その他 other. -/
def relationshipVocab : List String := ["配偶者", "子供", "父親", "母親", "兄弟姉妹", "その他"]

/-- The ids offered by the `_family_form` "link to existing person"
dropdown (app.py lines 1552-1556): every stored person except the owner
(the dropdown's name ordering is presentation only). -/
def familyFormLinkIds (people : List Person) (pid : Nat) : List Nat :=
  (people.filter fun p => p.id != pid).map Person.id

/-- The `delete_family` POST handler (app.py lines 1597-1605): removes the
row with primary key `fid` (no-op when unknown); nothing else is written. -/
def delete_family (st : St) (fid : Nat) : St :=
  match st.fams.find? (fun fm => fm.id == fid) with
  | none => st
  | some _ => { st with fams := st.fams.filter fun fm => fm.id != fid }

/-- The `delete_event` POST handler (app.py lines 1608-1616): removes the
row with primary key `eid` (no-op when unknown); nothing else is written. -/
def delete_event (st : St) (eid : Nat) : St :=
  match st.events.find? (fun e => e.id == eid) with
  | none => st
  | some _ => { st with events := st.events.filter fun e => e.id != eid }

/-! ### Listing: filter and sort (`index`, app.py lines 839-860) -/

/-- Lowercased character list of a string (the `lower()` both sides of an
`ILIKE` comparison receive; ASCII folding, as SQLite's `LIKE` performs). -/
def lowerList (s : String) : List Char := s.toList.map Char.toLower

/-- Does `f` accept some suffix of the list?  (Interprets the `%` wildcard.) -/
def anySuffix (f : List Char → Bool) : List Char → Bool
  | [] => f []
  | s@(_ :: tl) => f s || anySuffix f tl

/-- SQL `LIKE` pattern matching over already-lowercased text: `%` matches
any sequence, `_` matches any single character, and the pattern must cover
the whole string. -/
def likeMatch : List Char → List Char → Bool
  | [], s => s.isEmpty
  | c :: ps, s =>
    if c = '%' then anySuffix (likeMatch ps) s
    else
      match s with
      | [] => false
      | ch :: tl => (c == '_' || c == ch) && likeMatch ps tl

/-- `column.ilike(f"%{q}%")` as issued at app.py lines 847-853; a NULL
column never satisfies `ILIKE`. -/
def fieldIlike (q : String) : Option String → Bool
  | none => false
  | some s => likeMatch ('%' :: lowerList q ++ ['%']) (lowerList s)

/-- The OR of the three `ilike` conditions of `index`. -/
def personMatchesQ (q : String) (p : Person) : Bool :=
  fieldIlike q (some p.name) || fieldIlike q p.organization || fieldIlike q p.notes

/-- The filtering step of `index` (app.py lines 841-854): `q` is stripped,
and an empty `q` applies no filter. -/
def indexFiltered (q : String) (people : List Person) : List Person :=
  let qt := pyStrip q
  if qt = "" then people else people.filter (personMatchesQ qt)

/-- `_birthday_sort_key` (app.py lines 787-792): days until the next
birthday, with `None`/invalid mapped to the sentinel 9999. -/
def birthdaySortKey (today : SDate) (p : Person) : Int :=
  match formatBirthdayDays today p.birthday with
  | none => 9999
  | some days => days

/-- The row list of `index` (app.py lines 856-860): Python's stable
`list.sort(key=_birthday_sort_key)` is insertion sort by the key (stable
sorting by a key has a unique result, so any stable algorithm represents
it); the default branch is the `order_by(updated_at.desc())` query. -/
def indexRows (today : SDate) (q sortParam : String) (people : List Person) : List Person :=
  let filtered := indexFiltered q people
  if sortParam = "birthday" then
    List.insertionSort (fun a b => birthdaySortKey today a ≤ birthdaySortKey today b) filtered
  else
    List.insertionSort (fun a b => b.updated_at ≤ a.updated_at) filtered

/-! ### Spec-side characterisation of substring search (for the filtering
claim): these definitions follow the specification's words — containment of
the query as a case-insensitive substring — and are to be compared with the
`ILIKE`-based code path above. -/

/-- `x` occurs in `s` as a case-insensitive substring. -/
def lowerSub (x s : String) : Prop :=
  ∃ l r, lowerList s = l ++ lowerList x ++ r

/-- Substring containment for a nullable column (NULL contains nothing). -/
def lowerSubOpt (x : String) : Option String → Prop
  | none => False
  | some s => lowerSub x s

/-- Spec-side filter predicate: the query occurs in the name, the
organization, or the notes, case-insensitively. -/
def specMatchesQ (x : String) (p : Person) : Prop :=
  lowerSub x p.name ∨ lowerSubOpt x p.organization ∨ lowerSubOpt x p.notes

/-- Executable check that `p` begins the list `s`. -/
def prefixCh : List Char → List Char → Bool
  | [], _ => true
  | _ :: _, [] => false
  | a :: xs, b :: ys => a == b && prefixCh xs ys

/-- Executable substring occurrence: some suffix of `s` begins with `p`. -/
def occursIn (p s : List Char) : Bool := anySuffix (prefixCh p) s

/-! ### Concrete sample rows (used by witnesses and counterexamples) -/

/-- A sample person row with the given id, name, organization, notes,
birthday and `updated_at`; all other fields empty. -/
def mkPerson (i : Nat) (nm : String) (org notes bd : Option String) (upd : Nat) : Person :=
  { id := i, name := nm, organization := org, met_at := none, birthday := bd,
    notes := notes, twitter := none, instagram := none, facebook := none,
    linkedin := none, marital_status := none, has_children := none,
    has_pets := none, created_at := 0, updated_at := upd }

/-- A sample family-member row. -/
def mkFam (i pid : Nat) (nm rel : String) (bd : Option String) (link : Option Nat) :
    FamilyMember :=
  { id := i, person_id := pid, name := nm, relationship := rel, birthday := bd,
    linked_person_id := link, created_at := 0 }

/-- A sample event row. -/
def mkEvent (i pid : Nat) : Event :=
  { id := i, person_id := pid, event_date := "2023-05-01", content := "met",
    image_url := none, created_at := 0 }

/-- A sample person form with only the name filled in. -/
def mkForm (nm : String) : PersonForm :=
  { name := nm, organization := "", met_at := "", birthday := "",
    marital_status := "", has_children := "", has_pets := "", notes := "" }

/-- A sample inline-update form with an empty name and an organization. -/
def updForm0 : UpdateForm :=
  { name := "", organization := "ACME", met_at := "", birthday := "",
    notes := "", twitter := "", instagram := "", facebook := "",
    linkedin := "", marital_status := "", has_children := "", has_pets := "" }

/-! ## Calendar lemmas -/

theorem isleap_iff (y : Nat) :
    isleap y = true ↔ (y % 4 = 0 ∧ (y % 100 ≠ 0 ∨ y % 400 = 0)) := by
  simp [isleap]

theorem isleap_succ_false {y : Nat} (h : isleap y = true) : isleap (y + 1) = false := by
  cases hb : isleap (y + 1) with
  | false => rfl
  | true =>
    rw [isleap_iff] at h hb
    omega

theorem leapBit_le_one (y : Nat) : leapBit y ≤ 1 := by
  unfold leapBit; split <;> omega

theorem leapBit_of_isleap {y : Nat} (h : isleap y = true) : leapBit y = 1 := by
  simp [leapBit, h]

theorem leapBit_of_not_isleap {y : Nat} (h : isleap y = false) : leapBit y = 0 := by
  simp [leapBit, h]

theorem leapsBefore_succ (y : Nat) (hy : 1 ≤ y) :
    leapsBefore (y + 1) = leapsBefore y + leapBit y := by
  have hiff := isleap_iff y
  unfold leapsBefore leapBit
  cases hb : isleap y with
  | false =>
    rw [hb] at hiff
    simp only [hb, if_false, Bool.false_eq_true, false_iff] at hiff ⊢
    omega
  | true =>
    rw [hb] at hiff
    simp only [hb, if_true, true_iff] at hiff ⊢
    omega

theorem dbm_succ (y m : Nat) (hm : 1 ≤ m) :
    dbm y (m + 1) = dbm y m + daysInMonth y m := by
  cases m with
  | zero => omega
  | succ k => simp [dbm]

theorem daysInMonth_ge (y m : Nat) : 28 ≤ daysInMonth y m := by
  unfold daysInMonth leapBit
  split_ifs <;> omega

theorem daysInMonth_le (y m : Nat) : daysInMonth y m ≤ 31 := by
  unfold daysInMonth leapBit
  split_ifs <;> omega

theorem daysInMonth_split (y m : Nat) :
    daysInMonth y m = daysInMonth 1 m + (if m = 2 then leapBit y else 0) := by
  have h1 : leapBit 1 = 0 := by decide
  by_cases h : m = 2 <;> simp [daysInMonth, h, h1]

theorem daysInMonth_ne_two {m : Nat} (h : m ≠ 2) (a b : Nat) :
    daysInMonth a m = daysInMonth b m := by
  simp [daysInMonth, h]

theorem dbm_split (y m : Nat) :
    dbm y m = dbm 1 m + (if 3 ≤ m then leapBit y else 0) := by
  induction m with
  | zero => simp [dbm]
  | succ k ih =>
    by_cases hk : k = 0
    · subst hk; simp [dbm]
    · rw [dbm_succ y k (by omega), dbm_succ 1 k (by omega), ih, daysInMonth_split y k]
      split_ifs <;> omega

theorem dbm_mono (y : Nat) {a b : Nat} (h : a ≤ b) : dbm y a ≤ dbm y b := by
  induction b with
  | zero => rw [Nat.le_zero.mp h]
  | succ k ih =>
    rcases Nat.lt_succ_iff_lt_or_eq.mp (Nat.lt_succ_of_le h) with h' | h'
    · have : dbm y k ≤ dbm y (k + 1) := by
        show dbm y k ≤ dbm y k + _
        omega
      exact le_trans (ih (by omega)) this
    · subst h'; exact le_rfl

theorem dbm_two (y : Nat) : dbm y 2 = 31 := by
  rw [dbm_split]; norm_num; decide

theorem dbm_three (y : Nat) : dbm y 3 = 59 + leapBit y := by
  rw [dbm_split]
  have : dbm 1 3 = 59 := by decide
  norm_num [this]

theorem dbm_twelve (y : Nat) : dbm y 12 = 334 + leapBit y := by
  rw [dbm_split]
  have : dbm 1 12 = 334 := by decide
  norm_num [this]

theorem dbm_thirteen (y : Nat) : dbm y 13 = 365 + leapBit y := by
  rw [dbm_split]
  have : dbm 1 13 = 365 := by decide
  norm_num [this]

theorem dbm_day_bound (y m d : Nat) (hm1 : 1 ≤ m) (hm : m ≤ 12) (hd1 : 1 ≤ d)
    (hd : d ≤ daysInMonth y m) : dbm y m + (d - 1) ≤ 364 + leapBit y := by
  have h1 : dbm y (m + 1) = dbm y m + daysInMonth y m := dbm_succ y m hm1
  have h2 : dbm y (m + 1) ≤ dbm y 13 := dbm_mono y (by omega)
  have h3 : dbm y 13 = 365 + leapBit y := dbm_thirteen y
  omega

theorem toDays_mk (y m d : Nat) :
    toDays ⟨y, m, d⟩ = 365 * (y - 1) + leapsBefore y + dbm y m + (d - 1) := rfl

theorem toDays_succ_year (y m d : Nat) (hy : 1 ≤ y) :
    toDays ⟨y + 1, m, d⟩ =
      toDays ⟨y, m, d⟩ + 365 + (if 3 ≤ m then leapBit (y + 1) else leapBit y) := by
  rw [toDays_mk, toDays_mk, leapsBefore_succ y hy, dbm_split (y + 1) m, dbm_split y m]
  split_ifs <;> omega

/-- Same-year strict monotonicity of the day ordinal in the month. -/
theorem toDays_year_lt {y m1 d1 m2 d2 : Nat} (hm1 : 1 ≤ m1)
    (hd1 : 1 ≤ d1) (hdv1 : d1 ≤ daysInMonth y m1) (_hd2 : 1 ≤ d2)
    (hlt : m1 < m2) : toDays ⟨y, m1, d1⟩ < toDays ⟨y, m2, d2⟩ := by
  rw [toDays_mk, toDays_mk]
  have h1 : dbm y (m1 + 1) = dbm y m1 + daysInMonth y m1 := dbm_succ y m1 hm1
  have h2 : dbm y (m1 + 1) ≤ dbm y m2 := dbm_mono y hlt
  have h3 : 28 ≤ daysInMonth y m1 := daysInMonth_ge y m1
  omega

/-- Same-year injectivity of the day ordinal on valid month/day pairs. -/
theorem toDays_year_inj {y m1 d1 m2 d2 : Nat}
    (hm1 : 1 ≤ m1) (hd1 : 1 ≤ d1) (hdv1 : d1 ≤ daysInMonth y m1)
    (hm2 : 1 ≤ m2) (hd2 : 1 ≤ d2) (hdv2 : d2 ≤ daysInMonth y m2)
    (h : toDays ⟨y, m1, d1⟩ = toDays ⟨y, m2, d2⟩) : m1 = m2 ∧ d1 = d2 := by
  rcases lt_trichotomy m1 m2 with hlt | heq | hgt
  · exact absurd h (Nat.ne_of_lt (toDays_year_lt hm1 hd1 hdv1 hd2 hlt))
  · subst heq
    rw [toDays_mk, toDays_mk] at h
    omega
  · exact absurd h.symm (Nat.ne_of_lt (toDays_year_lt hm2 hd2 hdv2 hd1 hgt))

/-- Master specification of `nextBD` on a valid `today` and a valid
month/day pair: the computation succeeds (never a `ValueError`), lands on a
date not before `today` and at most 365 days ahead, and lands exactly on
`today` iff the pair is today's month/day or the Feb-29 → March-1
substitution hits today. -/
theorem nextBD_spec (today : SDate) (m d : Int) (ht : ValidDate today)
    (hp : validPair m d) :
    ∃ nb, nextBD today m d = some nb ∧
      toDays today ≤ toDays nb ∧ toDays nb ≤ toDays today + 365 ∧
      (toDays nb = toDays today ↔
        ((m = (today.month : Int) ∧ d = (today.day : Int)) ∨
         (m = 2 ∧ d = 29 ∧ today.month = 3 ∧ today.day = 1 ∧ isleap today.year = false))) := by
  obtain ⟨hy, htm1, htm2, htd1, htd2⟩ := ht
  obtain ⟨hm1, hm2, hd1, hdmax⟩ := hp
  have htod : toDays today =
      365 * (today.year - 1) + leapsBefore today.year + dbm today.year today.month +
        (today.day - 1) := toDays_mk today.year today.month today.day
  have hboundT : dbm today.year today.month + (today.day - 1) ≤ 364 + leapBit today.year :=
    dbm_day_bound today.year today.month today.day htm1 htm2 htd1 htd2
  have hlbty : leapBit today.year ≤ 1 := leapBit_le_one _
  by_cases hsp : m = 2 ∧ d = 29 ∧ ¬ isleap today.year = true
  · -- February 29 with a non-leap current year: candidate is March 1.
    obtain ⟨hm2', hd29, hnl⟩ := hsp
    have hnl' : isleap today.year = false := by
      cases h : isleap today.year
      · rfl
      · exact absurd h hnl
    have hlb0 : leapBit today.year = 0 := leapBit_of_not_isleap hnl'
    have hc : nextCandidate today m d = some ⟨today.year, 3, 1⟩ := by
      unfold nextCandidate
      rw [if_pos ⟨hm2', hd29, hnl⟩]
    have h31 : toDays ⟨today.year, 3, 1⟩ =
        365 * (today.year - 1) + leapsBefore today.year + 59 := by
      rw [toDays_mk, dbm_three, hlb0]
    have hvd31 : (1 : Nat) ≤ daysInMonth today.year 3 := by
      have := daysInMonth_ge today.year 3; omega
    by_cases hlt : toDays ⟨today.year, 3, 1⟩ < toDays today
    · -- advanced to March 1 of next year (whether or not next year is leap)
      have hnb : nextBD today m d = some ⟨today.year + 1, 3, 1⟩ := by
        simp only [nextBD, hc]
        unfold advanceIfPassed
        rw [if_pos hlt]
        by_cases h2 : isleap (today.year + 1) = true
        · rw [if_neg (by simp [h2])]
          unfold replaceY
          rw [if_pos (show (1:Nat) ≤ daysInMonth (today.year + 1) 3 by
            have := daysInMonth_ge (today.year + 1) 3; omega)]
        · rw [if_pos ⟨hm2', hd29, h2⟩]
      have hstep : toDays ⟨today.year + 1, 3, 1⟩ =
          toDays ⟨today.year, 3, 1⟩ + 365 + leapBit (today.year + 1) := by
        rw [toDays_succ_year today.year 3 1 hy]
        norm_num
      have hlb1 : leapBit (today.year + 1) ≤ 1 := leapBit_le_one _
      refine ⟨⟨today.year + 1, 3, 1⟩, hnb, by omega, by omega, ?_⟩
      constructor
      · intro h0; exfalso; omega
      · rintro (⟨ha, hb⟩ | ⟨-, -, h3, h1, -⟩)
        · exfalso
          have htm : today.month = 2 := by omega
          have htd : today.day = 29 := by omega
          rw [htm] at htd2
          have : daysInMonth today.year 2 = 28 := by
            simp [daysInMonth, hlb0]
          omega
        · exfalso
          have : toDays today = toDays ⟨today.year, 3, 1⟩ := by
            conv_lhs => rw [show today = ⟨today.year, today.month, today.day⟩ from rfl]
            rw [h3, h1]
          omega
    · -- candidate not passed: March 1 of this year
      have hnb : nextBD today m d = some ⟨today.year, 3, 1⟩ := by
        simp only [nextBD, hc]
        unfold advanceIfPassed
        rw [if_neg hlt]
      refine ⟨⟨today.year, 3, 1⟩, hnb, by omega, by omega, ?_⟩
      constructor
      · intro h0
        have h0' : toDays ⟨today.year, 3, 1⟩ =
            toDays ⟨today.year, today.month, today.day⟩ := h0
        have hinj := toDays_year_inj (by omega) (by omega) (by omega) htm1 htd1 htd2 h0'
        exact Or.inr ⟨hm2', hd29, hinj.1.symm, hinj.2.symm, hnl'⟩
      · rintro (⟨ha, hb⟩ | ⟨-, -, h3, h1, -⟩)
        · exfalso
          have htm : today.month = 2 := by omega
          have htd : today.day = 29 := by omega
          rw [htm] at htd2
          have : daysInMonth today.year 2 = 28 := by
            simp [daysInMonth, hlb0]
          omega
        · show toDays ⟨today.year, 3, 1⟩ = toDays today
          conv_rhs => rw [show today = ⟨today.year, today.month, today.day⟩ from rfl]
          rw [h3, h1]
  · -- general pair: the candidate is the pair in today's year
    obtain ⟨mm, rfl⟩ : ∃ mm : Nat, m = (mm : Int) := ⟨m.toNat, (Int.toNat_of_nonneg (by omega)).symm⟩
    obtain ⟨dd, rfl⟩ : ∃ dd : Nat, d = (dd : Int) := ⟨d.toNat, (Int.toNat_of_nonneg (by omega)).symm⟩
    have hmm1 : 1 ≤ mm := by omega
    have hmm2 : mm ≤ 12 := by omega
    have hdd1 : 1 ≤ dd := by omega
    have hmax : dd ≤ daysInMonthMax mm := by
      have : ((mm : Int)).toNat = mm := Int.toNat_natCast mm
      rw [this] at hdmax
      omega
    have hdv : dd ≤ daysInMonth today.year mm := by
      by_cases h2 : mm = 2
      · subst h2
        by_cases hd29' : dd = 29
        · have hl : isleap today.year = true := by
            by_contra hc2
            exact hsp ⟨by norm_num, by omega, hc2⟩
          have : daysInMonth today.year 2 = 29 := by
            simp [daysInMonth, leapBit_of_isleap hl]
          omega
        · have : daysInMonthMax 2 = 29 := by decide
          have h28 : 28 ≤ daysInMonth today.year 2 := daysInMonth_ge _ _
          omega
      · have : daysInMonthMax mm = daysInMonth today.year mm := by
          unfold daysInMonthMax daysInMonth
          simp [h2]
        omega
    have hrepl : replaceMD today (mm : Int) (dd : Int) = some ⟨today.year, mm, dd⟩ := by
      unfold replaceMD
      rw [if_pos ⟨hm1, hm2, hd1, by rw [Int.toNat_natCast]; exact_mod_cast hdv⟩]
      rw [Int.toNat_natCast, Int.toNat_natCast]
    have hc : nextCandidate today (mm : Int) (dd : Int) = some ⟨today.year, mm, dd⟩ := by
      unfold nextCandidate
      rw [if_neg hsp, hrepl]
    have htod0 : toDays ⟨today.year, mm, dd⟩ =
        365 * (today.year - 1) + leapsBefore today.year + dbm today.year mm + (dd - 1) :=
      toDays_mk today.year mm dd
    have hbound0 : dbm today.year mm + (dd - 1) ≤ 364 + leapBit today.year :=
      dbm_day_bound today.year mm dd hmm1 hmm2 hdd1 hdv
    by_cases hlt : toDays ⟨today.year, mm, dd⟩ < toDays today
    · by_cases hsp2 : (mm : Int) = 2 ∧ (dd : Int) = 29 ∧ ¬ isleap (today.year + 1) = true
      · -- Feb 29, next year not leap: March 1 substitution in next year
        obtain ⟨hm2', hd29, hnl2⟩ := hsp2
        have hmm2' : mm = 2 := by omega
        have hdd29 : dd = 29 := by omega
        have hlty : isleap today.year = true := by
          by_contra hc2
          exact hsp ⟨hm2', hd29, hc2⟩
        have hlb1 : leapBit today.year = 1 := leapBit_of_isleap hlty
        have hnl2' : isleap (today.year + 1) = false := by
          cases h : isleap (today.year + 1)
          · rfl
          · exact absurd h hnl2
        have hlb2 : leapBit (today.year + 1) = 0 := leapBit_of_not_isleap hnl2'
        have hnb : nextBD today (mm : Int) (dd : Int) = some ⟨today.year + 1, 3, 1⟩ := by
          simp only [nextBD, hc]
          unfold advanceIfPassed
          rw [if_pos hlt, if_pos ⟨hm2', hd29, hnl2⟩]
        have hstep : toDays ⟨today.year + 1, 3, 1⟩ =
            toDays ⟨today.year, 3, 1⟩ + 365 + leapBit (today.year + 1) := by
          rw [toDays_succ_year today.year 3 1 hy]
          norm_num
        have h31 : toDays ⟨today.year, 3, 1⟩ =
            365 * (today.year - 1) + leapsBefore today.year + (59 + leapBit today.year) := by
          rw [toDays_mk, dbm_three]
          omega
        have h2v : dbm today.year 2 = 31 := dbm_two _
        rw [hmm2', hdd29] at htod0 hlt
        refine ⟨⟨today.year + 1, 3, 1⟩, hnb, by omega, by omega, ?_⟩
        constructor
        · intro h0; exfalso; omega
        · rintro (⟨ha, hb⟩ | ⟨-, -, -, -, hnl3⟩)
          · exfalso
            have : today.month = 2 := by omega
            have : today.day = 29 := by omega
            have : toDays today = toDays ⟨today.year, 2, 29⟩ := by
              conv_lhs => rw [show today = ⟨today.year, today.month, today.day⟩ from rfl]
              rw [‹today.month = 2›, ‹today.day = 29›]
            omega
          · rw [hlty] at hnl3; exact absurd hnl3 (by simp)
      · -- general advance: the pair in next year
        have hdv2 : dd ≤ daysInMonth (today.year + 1) mm := by
          by_cases h2 : mm = 2
          · subst h2
            by_cases hd29' : dd = 29
            · have hl : isleap (today.year + 1) = true := by
                by_contra hc2
                exact hsp2 ⟨by norm_num, by omega, hc2⟩
              have : daysInMonth (today.year + 1) 2 = 29 := by
                simp [daysInMonth, leapBit_of_isleap hl]
              omega
            · have : daysInMonthMax 2 = 29 := by decide
              have h28 : 28 ≤ daysInMonth (today.year + 1) 2 := daysInMonth_ge _ _
              omega
          · rw [daysInMonth_ne_two h2 (today.year + 1) today.year]
            exact hdv
        have hnb : nextBD today (mm : Int) (dd : Int) = some ⟨today.year + 1, mm, dd⟩ := by
          simp only [nextBD, hc]
          unfold advanceIfPassed
          rw [if_pos hlt, if_neg hsp2]
          unfold replaceY
          rw [if_pos hdv2]
        have hstep : toDays ⟨today.year + 1, mm, dd⟩ =
            toDays ⟨today.year, mm, dd⟩ + 365 +
              (if 3 ≤ mm then leapBit (today.year + 1) else leapBit today.year) :=
          toDays_succ_year today.year mm dd hy
        have hlb1 : leapBit (today.year + 1) ≤ 1 := leapBit_le_one _
        have hlow : toDays today < toDays ⟨today.year + 1, mm, dd⟩ := by
          by_cases h3m : 3 ≤ mm
          · rw [if_pos h3m] at hstep
            have hd3 : dbm today.year 3 ≤ dbm today.year mm := dbm_mono _ h3m
            have := dbm_three today.year
            omega
          · rw [if_neg h3m] at hstep
            omega
        refine ⟨⟨today.year + 1, mm, dd⟩, hnb, by omega, ?_, ?_⟩
        · by_cases h3m : 3 ≤ mm
          · rw [if_pos h3m] at hstep; omega
          · rw [if_neg h3m] at hstep; omega
        constructor
        · intro h0; exfalso; omega
        · rintro (⟨ha, hb⟩ | ⟨hm2', hd29, -, -, hnl3⟩)
          · exfalso
            have hmt : mm = today.month := by omega
            have hdt : dd = today.day := by omega
            have : toDays ⟨today.year, mm, dd⟩ = toDays today := by
              conv_rhs => rw [show today = ⟨today.year, today.month, today.day⟩ from rfl]
              rw [hmt, hdt]
            omega
          · exact absurd ⟨hm2', hd29, by simp [hnl3]⟩ hsp
    · -- candidate not passed: the pair in this year
      have hnb : nextBD today (mm : Int) (dd : Int) = some ⟨today.year, mm, dd⟩ := by
        simp only [nextBD, hc]
        unfold advanceIfPassed
        rw [if_neg hlt]
      refine ⟨⟨today.year, mm, dd⟩, hnb, by omega, by omega, ?_⟩
      constructor
      · intro h0
        have h0' : toDays ⟨today.year, mm, dd⟩ =
            toDays ⟨today.year, today.month, today.day⟩ := h0
        have hinj := toDays_year_inj hmm1 hdd1 hdv htm1 htd1 htd2 h0'
        exact Or.inl ⟨by exact_mod_cast congrArg Nat.cast hinj.1,
          by exact_mod_cast congrArg Nat.cast hinj.2⟩
      · rintro (⟨ha, hb⟩ | ⟨hm2', hd29, -, -, hnl3⟩)
        · have hmt : mm = today.month := by omega
          have hdt : dd = today.day := by omega
          show toDays ⟨today.year, mm, dd⟩ = toDays today
          conv_rhs => rw [show today = ⟨today.year, today.month, today.day⟩ from rfl]
          rw [hmt, hdt]
        · exact absurd ⟨hm2', hd29, by simp [hnl3]⟩ hsp

theorem daysInMonth_le_max (y m : Nat) : daysInMonth y m ≤ daysInMonthMax m := by
  unfold daysInMonth daysInMonthMax leapBit
  split_ifs <;> omega

/-- Any month/day pair on which `daysUntilNextMD` succeeds is a valid pair. -/
theorem validPair_of_some {today : SDate} {m d : Int} {n : Int}
    (h : daysUntilNextMD today m d = some n) : validPair m d := by
  unfold daysUntilNextMD nextBD at h
  cases hc : nextCandidate today m d with
  | none => rw [hc] at h; exact absurd h (by simp)
  | some c =>
    unfold nextCandidate at hc
    by_cases hsp : m = 2 ∧ d = 29 ∧ ¬ isleap today.year = true
    · obtain ⟨h1, h2, -⟩ := hsp
      subst h1; subst h2
      exact (by decide : validPair 2 29)
    · rw [if_neg hsp] at hc
      unfold replaceMD at hc
      by_cases hcond : 1 ≤ m ∧ m ≤ 12 ∧ 1 ≤ d ∧ d ≤ (daysInMonth today.year m.toNat : Int)
      · obtain ⟨a1, a2, a3, a4⟩ := hcond
        have := daysInMonth_le_max today.year m.toNat
        exact ⟨a1, a2, a3, by omega⟩
      · rw [if_neg hcond] at hc
        exact absurd hc (by simp)

/-- Every successful `daysUntilNextMD` value lies in `[0, 365]`. -/
theorem daysUntilNextMD_range {today : SDate} {m d n : Int}
    (ht : ValidDate today) (h : daysUntilNextMD today m d = some n) :
    0 ≤ n ∧ n ≤ 365 := by
  obtain ⟨nb, hnb, hge, hle, -⟩ := nextBD_spec today m d ht (validPair_of_some h)
  unfold daysUntilNextMD at h
  rw [hnb] at h
  simp only [Option.map_some', Option.some.injEq] at h
  subst h
  unfold dayDiff
  omega

/-- Every successful `formatBirthdayDays` value lies in `[0, 365]`. -/
theorem formatBirthdayDays_range {today : SDate} {bd : Option String} {n : Int}
    (ht : ValidDate today) (h : formatBirthdayDays today bd = some n) :
    0 ≤ n ∧ n ≤ 365 := by
  cases bd with
  | none => exact absurd h (by simp [formatBirthdayDays])
  | some s =>
    simp only [formatBirthdayDays] at h
    cases hp : parseMD s with
    | none => rw [hp] at h; exact absurd h (by simp)
    | some md =>
      obtain ⟨m, d⟩ := md
      rw [hp] at h
      exact daysUntilNextMD_range ht h

/-- C3 (counterexample): on 2023-03-01 (a valid date in a non-leap year)
the valid pair February 29 yields 0 days until the next occurrence even
though the pair differs from today's month/day, so the computed value is
not 0 "exactly when the month/day pair equals today's month and day". -/
theorem c3_counterexample :
    ValidDate ⟨2023, 3, 1⟩ ∧ validPair 2 29 ∧
    daysUntilNextMD ⟨2023, 3, 1⟩ 2 29 = some 0 ∧
    ¬((2 : Int) = ((3 : Nat) : Int) ∧ (29 : Int) = ((1 : Nat) : Int)) := by
  refine ⟨by decide, by decide, by decide, by decide⟩

/-- C3 (amended): for a valid `today` and every month/day pair that is a
real calendar date, the computed days-until-next value exists (no
exception), is a non-negative integer at most 365, and is 0 exactly when
the pair equals today's month/day or in the one further case forced by the
Feb-29 rule: the pair is Feb 29, today is March 1, and the year is not
leap. -/
theorem c3_amended (today : SDate) (m d : Int) (ht : ValidDate today)
    (hp : validPair m d) :
    ∃ n : Int, daysUntilNextMD today m d = some n ∧ 0 ≤ n ∧ n ≤ 365 ∧
      (n = 0 ↔ ((m = (today.month : Int) ∧ d = (today.day : Int)) ∨
        (m = 2 ∧ d = 29 ∧ today.month = 3 ∧ today.day = 1 ∧
          isleap today.year = false))) := by
  obtain ⟨nb, hnb, hge, hle, hiff⟩ := nextBD_spec today m d ht hp
  refine ⟨dayDiff nb today, ?_, ?_, ?_, ?_⟩
  · unfold daysUntilNextMD
    rw [hnb]
    rfl
  · unfold dayDiff; omega
  · unfold dayDiff; omega
  · unfold dayDiff
    constructor
    · intro h0
      exact hiff.mp (by omega)
    · intro hr
      have := hiff.mpr hr
      omega

/-- C3 (amended) at a concrete input: today 2023-06-15; birthday pair
June 14 gives 365 days; the zero case holds for June 15 itself. -/
theorem c3_amended_witness :
    ValidDate ⟨2023, 6, 15⟩ ∧ validPair 6 14 ∧
    (∃ n : Int, daysUntilNextMD ⟨2023, 6, 15⟩ 6 14 = some n ∧ 0 ≤ n ∧ n ≤ 365 ∧
      (n = 0 ↔ (((6 : Int) = ((6 : Nat) : Int) ∧ (14 : Int) = ((15 : Nat) : Int)) ∨
        ((6 : Int) = 2 ∧ (14 : Int) = 29 ∧ (6 : Nat) = 3 ∧ (15 : Nat) = 1 ∧
          isleap 2023 = false)))) :=
  ⟨by decide, by decide, c3_amended ⟨2023, 6, 15⟩ 6 14 (by decide) (by decide)⟩

/-- The candidate year of the Feb-29 next-occurrence computation: today's
year, or the following year when the candidate occurrence (after the
March-1 substitution, as the code computes it) has already passed. -/
def feb29CandidateYear (today : SDate) : Nat :=
  match nextCandidate today 2 29 with
  | none => today.year
  | some c => if toDays c < toDays today then today.year + 1 else today.year

/-- C4 (confirmed): for a February-29 birthday on any valid `today`, when
the candidate year is not a leap year the next occurrence is March 1 of
that year; the computation always succeeds (never raises), and the
occurrence is never February 28. -/
theorem c4_feb29 (today : SDate) (ht : ValidDate today) :
    (isleap (feb29CandidateYear today) = false →
      nextBD today 2 29 = some ⟨feb29CandidateYear today, 3, 1⟩) ∧
    (∃ nb, nextBD today 2 29 = some nb ∧ ¬(nb.month = 2 ∧ nb.day = 28)) ∧
    (daysUntilNextMD today 2 29).isSome = true := by
  obtain ⟨hy, htm1, htm2, htd1, htd2⟩ := ht
  cases hl : isleap today.year with
  | true =>
    have h29 : daysInMonth today.year 2 = 29 := by
      simp [daysInMonth, leapBit_of_isleap hl]
    have hrepl : replaceMD today 2 29 = some ⟨today.year, 2, 29⟩ := by
      unfold replaceMD
      have hcond : (1 : Int) ≤ 2 ∧ (2 : Int) ≤ 12 ∧ (1 : Int) ≤ 29 ∧
          (29 : Int) ≤ ((daysInMonth today.year (2 : Int).toNat : Nat) : Int) := by
        refine ⟨by norm_num, by norm_num, by norm_num, ?_⟩
        rw [show ((2 : Int)).toNat = 2 from rfl, h29]
        norm_num
      rw [if_pos hcond]
      rfl
    have hc : nextCandidate today 2 29 = some ⟨today.year, 2, 29⟩ := by
      unfold nextCandidate
      rw [if_neg (by simp [hl]), hrepl]
    by_cases hlt : toDays ⟨today.year, 2, 29⟩ < toDays today
    · have hcy : feb29CandidateYear today = today.year + 1 := by
        unfold feb29CandidateYear
        simp only [hc]
        rw [if_pos hlt]
      have hnl : isleap (today.year + 1) = false := isleap_succ_false hl
      have hnb : nextBD today 2 29 = some ⟨today.year + 1, 3, 1⟩ := by
        simp only [nextBD, hc]
        unfold advanceIfPassed
        rw [if_pos hlt, if_pos ⟨rfl, rfl, by simp [hnl]⟩]
      refine ⟨fun _ => by rw [hcy, hnb], ⟨_, hnb, by simp⟩, ?_⟩
      unfold daysUntilNextMD
      rw [hnb]
      rfl
    · have hcy : feb29CandidateYear today = today.year := by
        unfold feb29CandidateYear
        simp only [hc]
        rw [if_neg hlt]
      have hnb : nextBD today 2 29 = some ⟨today.year, 2, 29⟩ := by
        simp only [nextBD, hc]
        unfold advanceIfPassed
        rw [if_neg hlt]
      refine ⟨fun hfalse => ?_, ⟨_, hnb, by simp⟩, ?_⟩
      · rw [hcy] at hfalse
        rw [hl] at hfalse
        exact absurd hfalse (by simp)
      · unfold daysUntilNextMD
        rw [hnb]
        rfl
  | false =>
    have hc : nextCandidate today 2 29 = some ⟨today.year, 3, 1⟩ := by
      unfold nextCandidate
      rw [if_pos ⟨rfl, rfl, by simp [hl]⟩]
    by_cases hlt : toDays ⟨today.year, 3, 1⟩ < toDays today
    · have hcy : feb29CandidateYear today = today.year + 1 := by
        unfold feb29CandidateYear
        simp only [hc]
        rw [if_pos hlt]
      cases hl2 : isleap (today.year + 1) with
      | false =>
        have hnb : nextBD today 2 29 = some ⟨today.year + 1, 3, 1⟩ := by
          simp only [nextBD, hc]
          unfold advanceIfPassed
          rw [if_pos hlt, if_pos ⟨rfl, rfl, by simp [hl2]⟩]
        refine ⟨fun _ => by rw [hcy, hnb], ⟨_, hnb, by simp⟩, ?_⟩
        unfold daysUntilNextMD
        rw [hnb]
        rfl
      | true =>
        have hnb : nextBD today 2 29 = some ⟨today.year + 1, 3, 1⟩ := by
          simp only [nextBD, hc]
          unfold advanceIfPassed
          rw [if_pos hlt, if_neg (by simp [hl2])]
          unfold replaceY
          rw [if_pos (show (1:Nat) ≤ daysInMonth (today.year + 1) 3 by
            have := daysInMonth_ge (today.year + 1) 3; omega)]
        refine ⟨fun hfalse => ?_, ⟨_, hnb, by simp⟩, ?_⟩
        · rw [hcy, hl2] at hfalse
          exact absurd hfalse (by simp)
        · unfold daysUntilNextMD
          rw [hnb]
          rfl
    · have hcy : feb29CandidateYear today = today.year := by
        unfold feb29CandidateYear
        simp only [hc]
        rw [if_neg hlt]
      have hnb : nextBD today 2 29 = some ⟨today.year, 3, 1⟩ := by
        simp only [nextBD, hc]
        unfold advanceIfPassed
        rw [if_neg hlt]
      refine ⟨fun _ => by rw [hcy, hnb], ⟨_, hnb, by simp⟩, ?_⟩
      unfold daysUntilNextMD
      rw [hnb]
      rfl

/-- C4 at a concrete input: on 2023-03-02 (candidate year 2024 is leap, so
the March-1 branch of the claim is vacuous there; on 2023-02-01 the
candidate year is the non-leap 2023 and the occurrence is 2023-03-01). -/
theorem c4_feb29_witness :
    ValidDate ⟨2023, 2, 1⟩ ∧
    ((isleap (feb29CandidateYear ⟨2023, 2, 1⟩) = false →
      nextBD ⟨2023, 2, 1⟩ 2 29 = some ⟨feb29CandidateYear ⟨2023, 2, 1⟩, 3, 1⟩) ∧
    (∃ nb, nextBD ⟨2023, 2, 1⟩ 2 29 = some nb ∧ ¬(nb.month = 2 ∧ nb.day = 28)) ∧
    (daysUntilNextMD ⟨2023, 2, 1⟩ 2 29).isSome = true) :=
  ⟨by decide, c4_feb29 ⟨2023, 2, 1⟩ (by decide)⟩

/-! ## Family display resolution (claim C1) -/

/-- C1 (counterexample): a family member with its own stored birthday
1990-01-01, linked to an existing person whose birthday is 1985-05-05, is
displayed with the member's own birthday, not the linked person's — so the
effective birthday shown is not "the linked Person's birthday with fallback
to the member's own only when the linked Person has none". -/
theorem c1_counterexample :
    resolveDisplay [mkPerson 2 "Jiro" none none (some "1985-05-05") 0]
        (mkFam 1 1 "Taro" "子供" (some "1990-01-01") (some 2)) =
      ("Jiro", some "1990-01-01") ∧
    (mkPerson 2 "Jiro" none none (some "1985-05-05") 0).birthday = some "1985-05-05" ∧
    some "1990-01-01" ≠ some "1985-05-05" := by
  refine ⟨by decide, by decide, by decide⟩

/-- C1 (amended): when a family member's link is set (a nonzero id, as all
stored ids are) and resolves to a stored person, the displayed name is the
linked person's current name, and the displayed birthday is the family
member's own stored birthday, falling back to the linked person's birthday
only when the member has none.  Stored birthday fields are written through
`strip() or None` and hence never `some ""`; the two non-empty hypotheses
record that. -/
theorem c1_amended (people : List Person) (fm : FamilyMember) (pid : Nat) (p : Person)
    (hlink : fm.linked_person_id = some pid) (hpid : pid ≠ 0)
    (hfound : lookupPerson people pid = some p)
    (hfm : fm.birthday ≠ some "") (hp : p.birthday ≠ some "") :
    resolveDisplay people fm = (p.name, Option.or fm.birthday p.birthday) := by
  simp only [resolveDisplay, hlink, if_neg hpid, hfound]
  cases hb : fm.birthday with
  | some b =>
    have hbne : b ≠ "" := by
      rw [hb] at hfm
      simpa using hfm
    rw [if_neg (by simp [strTruthy, hbne])]
    simp [Option.or]
  | none =>
    cases hpb : p.birthday with
    | some c =>
      have hcne : c ≠ "" := by
        rw [hpb] at hp
        simpa using hp
      rw [if_pos ⟨by simp [strTruthy], by simp [strTruthy, hcne]⟩]
      simp [Option.or]
    | none =>
      rw [if_neg (by simp [strTruthy])]
      simp [Option.or]

/-- C1 (amended) at a concrete input: a linked member with no stored
birthday falls back to the linked person's birthday. -/
theorem c1_amended_witness :
    (mkFam 1 1 "Taro" "子供" none (some 2)).linked_person_id = some 2 ∧
    lookupPerson [mkPerson 2 "Jiro" none none (some "1985-05-05") 0] 2 =
      some (mkPerson 2 "Jiro" none none (some "1985-05-05") 0) ∧
    resolveDisplay [mkPerson 2 "Jiro" none none (some "1985-05-05") 0]
        (mkFam 1 1 "Taro" "子供" none (some 2)) =
      ((mkPerson 2 "Jiro" none none (some "1985-05-05") 0).name,
        Option.or (mkFam 1 1 "Taro" "子供" none (some 2)).birthday
          (mkPerson 2 "Jiro" none none (some "1985-05-05") 0).birthday) :=
  ⟨by decide, by decide,
    c1_amended _ _ 2 _ (by decide) (by decide) (by decide) (by decide) (by decide)⟩

/-! ## Deferred-link protocol (claim C2) -/

/-- `find?` commutes with a map that does not change the tested property. -/
theorem find?_map_comm {α : Type} (u : α → α) (q : α → Bool)
    (hq : ∀ g, q (u g) = q g) (l : List α) :
    (l.map u).find? q = (l.find? q).map u := by
  induction l with
  | nil => rfl
  | cons a t ih =>
    simp only [List.map_cons, List.find?, hq a]
    cases q a
    · simpa using ih
    · rfl

/-- The element returned by `find?` satisfies the predicate. -/
theorem find?_pred_true {α : Type} {q : α → Bool} {l : List α} {a : α}
    (h : l.find? q = some a) : q a = true := by
  induction l with
  | nil => exact absurd h (by simp)
  | cons b t ih =>
    simp only [List.find?] at h
    cases hb : q b
    · simp only [hb] at h
      exact ih h
    · simp only [hb, Option.some.injEq] at h
      rw [← h]
      exact hb

/-- C2 (confirmed): when a new person is successfully created through the
deferred-link path (`link_family_id` resolving to a stored family member),
the new person is stored; if that member's link was unset it now points at
the new person's id, and if it was already set (a stored nonzero id) the
family table is completely untouched; no already-linked member anywhere
loses its link (links only ever go from unset to set). -/
theorem c2_deferred_link (st : St) (newPid : Nat) (f : PersonForm) (fid : Nat)
    (fm : FamilyMember) (now : Nat) (st' : St)
    (hnodup : (st.fams.map FamilyMember.id).Nodup)
    (hfind : st.fams.find? (fun g => g.id == fid) = some fm)
    (hok : addPerson st newPid f (some fid) now = some st') :
    ((∃ p ∈ st'.people, p.id = newPid ∧ p.name = pyStrip f.name) ∧
     (fm.linked_person_id = none →
        st'.fams.find? (fun g => g.id == fid) =
          some { fm with linked_person_id := some newPid }) ∧
     (∀ q, fm.linked_person_id = some q → q ≠ 0 → st'.fams = st.fams) ∧
     (∀ g ∈ st.fams, idTruthy g.linked_person_id = true → g ∈ st'.fams)) := by
  by_cases hname : pyStrip f.name = ""
  · rw [addPerson, if_pos hname] at hok
    exact absurd hok (by simp)
  · rw [addPerson, if_neg hname] at hok
    simp only [hfind] at hok
    have hfm_mem : fm ∈ st.fams := List.mem_of_find?_eq_some hfind
    have hfm_id : (fm.id == fid) = true := by simpa using find?_pred_true hfind
    by_cases htruthy : idTruthy fm.linked_person_id = true
    · rw [if_pos htruthy] at hok
      obtain rfl := Option.some.inj hok
      refine ⟨⟨{ id := newPid, name := pyStrip f.name,
                 organization := some (pyStrip f.organization), met_at := some (pyStrip f.met_at),
                 birthday := strOrNone f.birthday, marital_status := strOrNone f.marital_status,
                 has_children := strOrNone f.has_children, has_pets := strOrNone f.has_pets,
                 notes := some (pyStrip f.notes),
                 twitter := none, instagram := none, facebook := none, linkedin := none,
                 created_at := now, updated_at := now }, by simp, rfl, rfl⟩,
        ?_, fun q _ _ => rfl, fun g hg _ => hg⟩
      intro hnone
      exfalso
      rw [hnone] at htruthy
      simp [idTruthy] at htruthy
    · rw [if_neg htruthy] at hok
      obtain rfl := Option.some.inj hok
      have hqpres : ∀ g : FamilyMember,
          (((fun g : FamilyMember =>
              if g.id == fid then { g with linked_person_id := some newPid } else g) g).id
              == fid) = (g.id == fid) := by
        intro g
        by_cases h : (g.id == fid) = true
        · simp [h]
        · simp [h]
      refine ⟨⟨{ id := newPid, name := pyStrip f.name,
                 organization := some (pyStrip f.organization), met_at := some (pyStrip f.met_at),
                 birthday := strOrNone f.birthday, marital_status := strOrNone f.marital_status,
                 has_children := strOrNone f.has_children, has_pets := strOrNone f.has_pets,
                 notes := some (pyStrip f.notes),
                 twitter := none, instagram := none, facebook := none, linkedin := none,
                 created_at := now, updated_at := now }, by simp, rfl, rfl⟩, ?_, ?_, ?_⟩
      · intro hnone
        have hmap := find?_map_comm
          (fun g : FamilyMember =>
            if g.id == fid then { g with linked_person_id := some newPid } else g)
          (fun g : FamilyMember => g.id == fid) hqpres st.fams
        show (st.fams.map _).find? (fun g : FamilyMember => g.id == fid) = _
        rw [hmap, hfind]
        simp only [Option.map_some']
        rw [if_pos hfm_id]
      · intro q hq hq0
        rw [hq] at htruthy
        exact absurd (by simp [idTruthy, hq0]) htruthy
      · intro g hg hgt
        have hgne : (g.id == fid) = false := by
          by_contra hcon
          simp only [Bool.not_eq_false] at hcon
          have hgfm : g = fm := by
            apply List.inj_on_of_nodup_map hnodup hg hfm_mem
            have h1 : g.id = fid := by simpa using hcon
            have h2 : fm.id = fid := by simpa using hfm_id
            rw [h1, h2]
          rw [hgfm] at hgt
          exact absurd hgt htruthy
        show g ∈ st.fams.map _
        refine List.mem_map.mpr ⟨g, hg, ?_⟩
        simp [hgne]

/-- C2 at a concrete input: registering "Hanako" (new id 2) against the
unlinked placeholder family member with id 5 links that member to id 2. -/
theorem c2_deferred_link_witness :
    ((({ people := [mkPerson 1 "Ichiro" none none none 0], events := [],
         fams := [mkFam 5 1 "Hanako" "配偶者" none none] } : St).fams.map
        FamilyMember.id).Nodup) ∧
    (({ people := [mkPerson 1 "Ichiro" none none none 0], events := [],
        fams := [mkFam 5 1 "Hanako" "配偶者" none none] } : St).fams.find?
        (fun g => g.id == 5) = some (mkFam 5 1 "Hanako" "配偶者" none none)) ∧
    (((addPerson { people := [mkPerson 1 "Ichiro" none none none 0], events := [],
                   fams := [mkFam 5 1 "Hanako" "配偶者" none none] } 2
          (mkForm "Hanako") (some 5) 7).getD
        { people := [], events := [], fams := [] }).fams.find? (fun g => g.id == 5) =
      some { mkFam 5 1 "Hanako" "配偶者" none none with linked_person_id := some 2 }) :=
  ⟨by decide, by decide,
    (c2_deferred_link
      { people := [mkPerson 1 "Ichiro" none none none 0], events := [],
        fams := [mkFam 5 1 "Hanako" "配偶者" none none] } 2 (mkForm "Hanako") 5
      (mkFam 5 1 "Hanako" "配偶者" none none) 7
      ((addPerson { people := [mkPerson 1 "Ichiro" none none none 0], events := [],
                    fams := [mkFam 5 1 "Hanako" "配偶者" none none] } 2
          (mkForm "Hanako") (some 5) 7).getD { people := [], events := [], fams := [] })
      (by decide) (by decide) (by decide)).2.1 rfl⟩

/-! ## Family-member creation validation (claim C5) -/

/-- C5 (counterexample): the server accepts a family member whose
relationship 友人 ("friend") is outside the closed vocabulary and whose
linked person id equals the owning person's id (a self-link to person 1),
persisting the row instead of failing with a validation error. -/
theorem c5_counterexample :
    add_family { people := [mkPerson 1 "Ichiro" none none none 0], events := [],
                 fams := [] } 1 9 "Hanako" "友人" "" (some 1) 0 =
      AddFamilyResult.ok
        { people := [mkPerson 1 "Ichiro" none none none 0], events := [],
          fams := [mkFam 9 1 "Hanako" "友人" none (some 1)] } ∧
    "友人" ∉ relationshipVocab := by
  refine ⟨by decide, by decide⟩

/-- C5 (amended): adding a family member to an existing person fails with a
validation error (persisting nothing) exactly when the stripped name or
stripped relationship is empty; the relationship vocabulary, the no-self-link
rule and linked-person existence are enforced only by the HTML form (whose
link dropdown excludes the owner), not by the server, which persists the
submitted relationship and linked id verbatim and touches the owner's
`updated_at`. -/
theorem c5_amended (st : St) (pid newFid : Nat) (nameF relF bdF : String)
    (linkedPersonId : Option Nat) (now : Nat) (person : Person)
    (hfound : lookupPerson st.people pid = some person) :
    (add_family st pid newFid nameF relF bdF linkedPersonId now =
        AddFamilyResult.validationError ↔ (pyStrip nameF = "" ∨ pyStrip relF = "")) ∧
    (¬(pyStrip nameF = "" ∨ pyStrip relF = "") →
      add_family st pid newFid nameF relF bdF linkedPersonId now =
        AddFamilyResult.ok { st with
          fams := st.fams ++ [{ id := newFid, person_id := pid, name := pyStrip nameF,
                                relationship := pyStrip relF, birthday := strOrNone bdF,
                                linked_person_id := linkedPersonId, created_at := now }],
          people := touchPerson st.people pid now }) ∧
    (∀ i ∈ familyFormLinkIds st.people pid, i ≠ pid) := by
  have hlinks : ∀ i ∈ familyFormLinkIds st.people pid, i ≠ pid := by
    intro i hi
    obtain ⟨q, hq, rfl⟩ := List.mem_map.mp hi
    have := (List.mem_filter.mp hq).2
    simpa [bne_iff_ne] using this
  simp only [add_family, hfound]
  by_cases hval : pyStrip nameF = "" ∨ pyStrip relF = ""
  · rw [if_pos hval]
    exact ⟨⟨fun _ => hval, fun _ => rfl⟩, fun hcon => absurd hval hcon, hlinks⟩
  · rw [if_neg hval]
    exact ⟨⟨fun h => absurd h (by simp), fun hv => absurd hv hval⟩, fun _ => rfl, hlinks⟩

/-- C5 (amended) at a concrete input: an empty relationship is rejected,
a complete submission is not. -/
theorem c5_amended_witness :
    lookupPerson [mkPerson 1 "Ichiro" none none none 0] 1 =
      some (mkPerson 1 "Ichiro" none none none 0) ∧
    (add_family { people := [mkPerson 1 "Ichiro" none none none 0], events := [],
                  fams := [] } 1 9 "Hanako" " " "" none 0 =
        AddFamilyResult.validationError ↔
      (pyStrip "Hanako" = "" ∨ pyStrip " " = "")) :=
  ⟨by decide,
    (c5_amended { people := [mkPerson 1 "Ichiro" none none none 0], events := [],
                  fams := [] } 1 9 "Hanako" " " "" none 0
      (mkPerson 1 "Ichiro" none none none 0) (by decide)).1⟩

/-! ## Deletion side effects (claim C6) -/

/-- C6 (counterexample): deleting an event (or a family member) removes the
row but leaves the owning person's `updated_at` at its old value 5 — the
delete handlers never read the clock, so the field does not become the
current time (any instant other than 5, e.g. 100). -/
theorem c6_counterexample :
    (delete_event { people := [mkPerson 1 "Ichiro" none none none 5],
                    events := [mkEvent 10 1], fams := [] } 10) =
      { people := [mkPerson 1 "Ichiro" none none none 5], events := [], fams := [] } ∧
    (delete_family { people := [mkPerson 1 "Ichiro" none none none 5], events := [],
                     fams := [mkFam 11 1 "Hanako" "配偶者" none none] } 11) =
      { people := [mkPerson 1 "Ichiro" none none none 5], events := [], fams := [] } ∧
    (mkPerson 1 "Ichiro" none none none 5).updated_at = 5 ∧ (5 : Nat) ≠ 100 := by
  refine ⟨by decide, by decide, by decide, by decide⟩

/-- C6 (amended): deleting an event removes exactly the rows with that id
and writes nothing else — in particular every person row, hence every
`updated_at`, is unchanged; likewise for deleting a family member. -/
theorem c6_amended (st : St) (rid : Nat) :
    ((delete_event st rid).people = st.people ∧
     (delete_event st rid).fams = st.fams ∧
     (∀ e : Event, e ∈ (delete_event st rid).events ↔ e ∈ st.events ∧ e.id ≠ rid)) ∧
    ((delete_family st rid).people = st.people ∧
     (delete_family st rid).events = st.events ∧
     (∀ g : FamilyMember, g ∈ (delete_family st rid).fams ↔ g ∈ st.fams ∧ g.id ≠ rid)) := by
  constructor
  · unfold delete_event
    cases hf : st.events.find? (fun e => e.id == rid) with
    | none =>
      have hall := List.find?_eq_none.mp hf
      refine ⟨rfl, rfl, fun e => ⟨fun he => ⟨he, ?_⟩, fun he => he.1⟩⟩
      intro hcon
      exact absurd (by simp [hcon]) (hall e he)
    | some ev =>
      refine ⟨rfl, rfl, fun e => ?_⟩
      simp [List.mem_filter, bne_iff_ne]
  · unfold delete_family
    cases hf : st.fams.find? (fun g => g.id == rid) with
    | none =>
      have hall := List.find?_eq_none.mp hf
      refine ⟨rfl, rfl, fun g => ⟨fun hg => ⟨hg, ?_⟩, fun hg => hg.1⟩⟩
      intro hcon
      exact absurd (by simp [hcon]) (hall g hg)
    | some fm =>
      refine ⟨rfl, rfl, fun g => ?_⟩
      simp [List.mem_filter, bne_iff_ne]

/-! ## Person deletion cascade (claim C9) -/

/-- A family member whose link does not resolve is displayed with its own
stored name and birthday (total function: no crash). -/
theorem resolveDisplay_dangling (people : List Person) (fm : FamilyMember) (pid : Nat)
    (hlink : fm.linked_person_id = some pid)
    (hnone : lookupPerson people pid = none) :
    resolveDisplay people fm = (fm.name, fm.birthday) := by
  simp only [resolveDisplay, hlink]
  by_cases h0 : pid = 0
  · rw [if_pos h0]
  · rw [if_neg h0]
    simp only [hnone]

/-- C9 (confirmed): deleting a stored person removes exactly its own events
and its own family rows; family rows owned by other persons — including
those whose `linked_person_id` points at the deleted person — survive
unchanged, and resolving such a dangling row afterwards falls back to the
row's own stored name and birthday (and, being a total function, cannot
crash). -/
theorem c9_delete_cascade (st : St) (pid : Nat) (p : Person)
    (hfound : lookupPerson st.people pid = some p) :
    (∀ q : Person, q ∈ (deletePerson st pid).people ↔ q ∈ st.people ∧ q.id ≠ pid) ∧
    (∀ e : Event, e ∈ (deletePerson st pid).events ↔ e ∈ st.events ∧ e.person_id ≠ pid) ∧
    (∀ g : FamilyMember,
      g ∈ (deletePerson st pid).fams ↔ g ∈ st.fams ∧ g.person_id ≠ pid) ∧
    (∀ g : FamilyMember, g ∈ (deletePerson st pid).fams →
      g.linked_person_id = some pid →
      resolveDisplay (deletePerson st pid).people g = (g.name, g.birthday)) := by
  unfold deletePerson
  simp only [hfound]
  refine ⟨?_, ?_, ?_, ?_⟩
  · intro q
    simp [List.mem_filter, bne_iff_ne]
  · intro e
    simp [List.mem_filter, bne_iff_ne]
  · intro g
    simp [List.mem_filter, bne_iff_ne]
  · intro g _ hlink
    refine resolveDisplay_dangling _ g pid hlink ?_
    unfold lookupPerson
    rw [List.find?_eq_none]
    intro x hx
    have := (List.mem_filter.mp hx).2
    simp only [bne_iff_ne] at this
    simp [this]

/-- C9 at a concrete input: deleting person 1 removes its event and family
row, keeps person 2's rows, and person 2's family row that linked to person
1 now resolves to its own stored name and birthday. -/
theorem c9_delete_cascade_witness :
    lookupPerson [mkPerson 1 "Ichiro" none none none 0,
        mkPerson 2 "Jiro" none none none 0] 1 = some (mkPerson 1 "Ichiro" none none none 0) ∧
    (mkEvent 11 2 ∈ (deletePerson
        { people := [mkPerson 1 "Ichiro" none none none 0, mkPerson 2 "Jiro" none none none 0],
          events := [mkEvent 10 1, mkEvent 11 2],
          fams := [mkFam 5 2 "Ichiro" "配偶者" (some "1990-01-01") (some 1),
                   mkFam 6 1 "X" "子供" none none] } 1).events ↔
      mkEvent 11 2 ∈ [mkEvent 10 1, mkEvent 11 2] ∧ (mkEvent 11 2).person_id ≠ 1) ∧
    resolveDisplay (deletePerson
        { people := [mkPerson 1 "Ichiro" none none none 0, mkPerson 2 "Jiro" none none none 0],
          events := [mkEvent 10 1, mkEvent 11 2],
          fams := [mkFam 5 2 "Ichiro" "配偶者" (some "1990-01-01") (some 1),
                   mkFam 6 1 "X" "子供" none none] } 1).people
        (mkFam 5 2 "Ichiro" "配偶者" (some "1990-01-01") (some 1)) =
      ((mkFam 5 2 "Ichiro" "配偶者" (some "1990-01-01") (some 1)).name,
       (mkFam 5 2 "Ichiro" "配偶者" (some "1990-01-01") (some 1)).birthday) := by
  refine ⟨by decide, (c9_delete_cascade
      { people := [mkPerson 1 "Ichiro" none none none 0, mkPerson 2 "Jiro" none none none 0],
        events := [mkEvent 10 1, mkEvent 11 2],
        fams := [mkFam 5 2 "Ichiro" "配偶者" (some "1990-01-01") (some 1),
                 mkFam 6 1 "X" "子供" none none] } 1 (mkPerson 1 "Ichiro" none none none 0)
    (by decide)).2.1 (mkEvent 11 2),
    (c9_delete_cascade
      { people := [mkPerson 1 "Ichiro" none none none 0, mkPerson 2 "Jiro" none none none 0],
        events := [mkEvent 10 1, mkEvent 11 2],
        fams := [mkFam 5 2 "Ichiro" "配偶者" (some "1990-01-01") (some 1),
                 mkFam 6 1 "X" "子供" none none] } 1 (mkPerson 1 "Ichiro" none none none 0)
      (by decide)).2.2.2 (mkFam 5 2 "Ichiro" "配偶者" (some "1990-01-01") (some 1))
      (by decide) rfl⟩

/-! ## Inline profile update with an empty name (claim C10) -/

/-- C10 (confirmed): when the inline update form carries a name that is
empty after trimming, the update succeeds, rows of other persons are
untouched, the target row receives every other submitted field and
`updated_at := now` while its `name` field is left as it was, and the
"every stored name is non-empty" invariant is preserved. -/
theorem c10_empty_name_update (st : St) (pid : Nat) (f : UpdateForm) (now : Nat)
    (person : Person) (hfound : lookupPerson st.people pid = some person)
    (hempty : pyStrip f.name = "") :
    (update_person st pid f now).isSome = true ∧
    (∀ st', update_person st pid f now = some st' →
      ((∀ q, q ∈ st.people → q.id ≠ pid → q ∈ st'.people) ∧
       (∀ q, q ∈ st.people → q.id = pid →
          { q with organization := some (pyStrip f.organization),
                   met_at := some (pyStrip f.met_at),
                   birthday := strOrNone f.birthday, notes := some (pyStrip f.notes),
                   twitter := strOrNone f.twitter, instagram := strOrNone f.instagram,
                   facebook := strOrNone f.facebook, linkedin := strOrNone f.linkedin,
                   marital_status := strOrNone f.marital_status,
                   has_children := strOrNone f.has_children,
                   has_pets := strOrNone f.has_pets,
                   updated_at := now } ∈ st'.people) ∧
       ((∀ q ∈ st.people, q.name ≠ "") → ∀ q ∈ st'.people, q.name ≠ ""))) := by
  have happ : ∀ q : Person, applyUpdate q f now =
      { q with organization := some (pyStrip f.organization),
               met_at := some (pyStrip f.met_at),
               birthday := strOrNone f.birthday, notes := some (pyStrip f.notes),
               twitter := strOrNone f.twitter, instagram := strOrNone f.instagram,
               facebook := strOrNone f.facebook, linkedin := strOrNone f.linkedin,
               marital_status := strOrNone f.marital_status,
               has_children := strOrNone f.has_children,
               has_pets := strOrNone f.has_pets,
               updated_at := now } := by
    intro q
    unfold applyUpdate
    rw [if_neg (by simp [hempty])]
  unfold update_person
  simp only [hfound]
  refine ⟨rfl, ?_⟩
  intro st' hok
  obtain rfl := Option.some.inj hok
  refine ⟨?_, ?_, ?_⟩
  · intro q hq hne
    show q ∈ st.people.map _
    refine List.mem_map.mpr ⟨q, hq, ?_⟩
    rw [if_neg (by simp [hne])]
  · intro q hq heq
    show _ ∈ st.people.map _
    refine List.mem_map.mpr ⟨q, hq, ?_⟩
    rw [if_pos (by simp [heq])]
    exact happ q
  · intro hall q' hq'
    obtain ⟨q, hq, rfl⟩ := List.mem_map.mp hq'
    by_cases h : (q.id == pid) = true
    · rw [if_pos h, happ q]
      exact hall q hq
    · rw [if_neg h]
      exact hall q hq

/-- C10 at a concrete input: updating person 1 with an empty name and
organization "ACME" succeeds, leaves person 2 untouched, and stores the
updated row for person 1 with its old name. -/
theorem c10_empty_name_update_witness :
    lookupPerson [mkPerson 1 "Ichiro" none none none 0, mkPerson 2 "Jiro" none none none 0] 1 =
      some (mkPerson 1 "Ichiro" none none none 0) ∧
    pyStrip updForm0.name = "" ∧
    (update_person { people := [mkPerson 1 "Ichiro" none none none 0,
                                mkPerson 2 "Jiro" none none none 0],
                     events := [], fams := [] } 1 updForm0 9).isSome = true ∧
    ({ mkPerson 1 "Ichiro" none none none 0 with
       organization := some (pyStrip updForm0.organization),
       met_at := some (pyStrip updForm0.met_at),
       birthday := strOrNone updForm0.birthday, notes := some (pyStrip updForm0.notes),
       twitter := strOrNone updForm0.twitter, instagram := strOrNone updForm0.instagram,
       facebook := strOrNone updForm0.facebook, linkedin := strOrNone updForm0.linkedin,
       marital_status := strOrNone updForm0.marital_status,
       has_children := strOrNone updForm0.has_children,
       has_pets := strOrNone updForm0.has_pets,
       updated_at := 9 } ∈
      ((update_person { people := [mkPerson 1 "Ichiro" none none none 0,
                                   mkPerson 2 "Jiro" none none none 0],
                        events := [], fams := [] } 1 updForm0 9).getD
        { people := [], events := [], fams := [] }).people) := by
  have H := c10_empty_name_update
    { people := [mkPerson 1 "Ichiro" none none none 0, mkPerson 2 "Jiro" none none none 0],
      events := [], fams := [] } 1 updForm0 9 (mkPerson 1 "Ichiro" none none none 0)
    (by decide) (by decide)
  exact ⟨by decide, by decide, H.1,
    (H.2 _ (by decide)).2.1 (mkPerson 1 "Ichiro" none none none 0) (by decide) rfl⟩

/-! ## Birthday-proximity sorting (claim C7) -/

/-- Inserting into a list and then filtering by an exact key value either
prepends the inserted element (when its key matches) or leaves the filtered
list unchanged: the ordered insert walks past strictly smaller keys only. -/
theorem orderedInsert_filter_key {α : Type} (key : α → Int) (k : Int) (a : α)
    (l : List α) :
    (List.orderedInsert (fun x y => key x ≤ key y) a l).filter (fun x => key x == k) =
      if key a == k then a :: l.filter (fun x => key x == k)
      else l.filter (fun x => key x == k) := by
  induction l with
  | nil =>
    simp only [List.orderedInsert_nil, List.filter]
    cases hk : (key a == k) <;> simp [hk]
  | cons b t ih =>
    simp only [List.orderedInsert]
    by_cases hab : key a ≤ key b
    · rw [if_pos hab]
      by_cases hk : (key a == k) = true
      · simp [List.filter_cons, hk]
      · simp only [Bool.not_eq_true] at hk
        simp [List.filter_cons, hk]
    · rw [if_neg hab]
      by_cases hbk : (key b == k) = true
      · have hak : (key a == k) = false := by
          have hbk' : key b = k := by simpa using hbk
          have hne : ¬ key a = k := by omega
          simp [hne]
        simp [List.filter_cons, hbk, ih, hak]
      · simp only [Bool.not_eq_true] at hbk
        simp [List.filter_cons, hbk, ih]

/-- Insertion sort by an integer key is stable: it permutes nothing within
any class of equal keys (the filtered subsequence at each key value is
unchanged) — the formal rendering of Python's `list.sort` stability. -/
theorem insertionSort_filter_key {α : Type} (key : α → Int) (k : Int) (l : List α) :
    (List.insertionSort (fun x y => key x ≤ key y) l).filter (fun x => key x == k) =
      l.filter (fun x => key x == k) := by
  induction l with
  | nil => rfl
  | cons a t ih =>
    simp only [List.insertionSort]
    rw [orderedInsert_filter_key, List.filter_cons]
    by_cases hk : (key a == k) = true
    · rw [if_pos hk, ih, if_pos hk]
    · rw [if_neg hk, ih, if_neg hk]

/-- C7 (confirmed): listing with `sort=birthday` permutes the filtered rows
into an order that is ascending in the days-until-next-birthday key, stable
on ties (each key class keeps its original subsequence), and places every
person with a missing or unparseable birthday (sentinel key 9999) after
every person with a valid one (key at most 365). -/
theorem c7_birthday_sort (today : SDate) (q : String) (people : List Person)
    (ht : ValidDate today) :
    (indexRows today q "birthday" people).Perm (indexFiltered q people) ∧
    (indexRows today q "birthday" people).Pairwise
      (fun a b => birthdaySortKey today a ≤ birthdaySortKey today b) ∧
    (∀ k : Int, (indexRows today q "birthday" people).filter
        (fun p => birthdaySortKey today p == k) =
      (indexFiltered q people).filter (fun p => birthdaySortKey today p == k)) ∧
    (indexRows today q "birthday" people).Pairwise
      (fun a b => formatBirthdayDays today a.birthday = none →
        formatBirthdayDays today b.birthday = none) := by
  have hrows : indexRows today q "birthday" people =
      List.insertionSort (fun a b => birthdaySortKey today a ≤ birthdaySortKey today b)
        (indexFiltered q people) := by
    simp [indexRows]
  haveI : IsTotal Person (fun a b => birthdaySortKey today a ≤ birthdaySortKey today b) :=
    ⟨fun a b => Int.le_total _ _⟩
  haveI : IsTrans Person (fun a b => birthdaySortKey today a ≤ birthdaySortKey today b) :=
    ⟨fun _ _ _ h1 h2 => le_trans h1 h2⟩
  have hsorted := List.sorted_insertionSort
    (fun a b => birthdaySortKey today a ≤ birthdaySortKey today b)
    (indexFiltered q people)
  refine ⟨?_, ?_, ?_, ?_⟩
  · rw [hrows]
    exact List.perm_insertionSort _ _
  · rw [hrows]
    exact hsorted
  · intro k
    rw [hrows]
    exact insertionSort_filter_key (birthdaySortKey today) k (indexFiltered q people)
  · rw [hrows]
    refine List.Pairwise.imp ?_ hsorted
    intro a b hr hinva
    cases hb : formatBirthdayDays today b.birthday with
    | none => rfl
    | some n =>
      exfalso
      have hn := formatBirthdayDays_range ht hb
      have hka : birthdaySortKey today a = 9999 := by
        simp [birthdaySortKey, hinva]
      have hkb : birthdaySortKey today b = n := by
        simp [birthdaySortKey, hb]
      rw [hka, hkb] at hr
      omega

/-- C7 at a concrete input: three persons (birthdays June 20, none,
June 10) listed on 2023-06-15: the result is a permutation of the input and
the sentinel key class 9999 is exactly the person with no birthday. -/
theorem c7_birthday_sort_witness :
    ValidDate ⟨2023, 6, 15⟩ ∧
    (indexRows ⟨2023, 6, 15⟩ "" "birthday"
        [mkPerson 1 "A" none none (some "1990-06-20") 0,
         mkPerson 2 "B" none none none 0,
         mkPerson 3 "C" none none (some "1990-06-10") 0]).Perm
      (indexFiltered ""
        [mkPerson 1 "A" none none (some "1990-06-20") 0,
         mkPerson 2 "B" none none none 0,
         mkPerson 3 "C" none none (some "1990-06-10") 0]) ∧
    ((indexRows ⟨2023, 6, 15⟩ "" "birthday"
        [mkPerson 1 "A" none none (some "1990-06-20") 0,
         mkPerson 2 "B" none none none 0,
         mkPerson 3 "C" none none (some "1990-06-10") 0]).filter
        (fun p => birthdaySortKey ⟨2023, 6, 15⟩ p == 9999) =
      (indexFiltered ""
        [mkPerson 1 "A" none none (some "1990-06-20") 0,
         mkPerson 2 "B" none none none 0,
         mkPerson 3 "C" none none (some "1990-06-10") 0]).filter
        (fun p => birthdaySortKey ⟨2023, 6, 15⟩ p == 9999)) := by
  have H := c7_birthday_sort ⟨2023, 6, 15⟩ ""
    [mkPerson 1 "A" none none (some "1990-06-20") 0,
     mkPerson 2 "B" none none none 0,
     mkPerson 3 "C" none none (some "1990-06-10") 0] (by decide)
  exact ⟨by decide, H.1, H.2.2.1 9999⟩

/-! ## Free-text filtering (claim C8) -/

theorem anySuffix_congr {f g : List Char → Bool} (h : ∀ x, f x = g x) (s : List Char) :
    anySuffix f s = anySuffix g s := by
  induction s with
  | nil => simp [anySuffix, h]
  | cons c tl ih => simp [anySuffix, h, ih]

theorem anySuffix_empty_true (s : List Char) : anySuffix (likeMatch []) s = true := by
  induction s with
  | nil => simp [anySuffix, likeMatch]
  | cons c tl ih => simp [anySuffix, ih]

/-- A wildcard-free literal pattern followed by `%` matches exactly the
strings that begin with the literal. -/
theorem likeMatch_lit : ∀ lit : List Char, (∀ c ∈ lit, c ≠ '%' ∧ c ≠ '_') →
    ∀ s, likeMatch (lit ++ ['%']) s = prefixCh lit s := by
  intro lit
  induction lit with
  | nil =>
    intro _ s
    simp only [List.nil_append]
    rw [show likeMatch ['%'] s = anySuffix (likeMatch []) s from by simp [likeMatch]]
    rw [anySuffix_empty_true]
    rfl
  | cons c cs ih =>
    intro hw s
    obtain ⟨hcp, hcu⟩ := hw c (by simp)
    have hw' : ∀ x ∈ cs, x ≠ '%' ∧ x ≠ '_' := fun x hx => hw x (by simp [hx])
    cases s with
    | nil => simp [likeMatch, prefixCh, hcp]
    | cons ch tl =>
      simp only [List.cons_append]
      rw [show likeMatch (c :: (cs ++ ['%'])) (ch :: tl) =
          ((c == '_' || c == ch) && likeMatch (cs ++ ['%']) tl) from by
        simp [likeMatch, hcp]]
      rw [ih hw' tl,
        show prefixCh (c :: cs) (ch :: tl) = ((c == ch) && prefixCh cs tl) from rfl,
        beq_eq_false_iff_ne.mpr hcu, Bool.false_or]

/-- The `%…%` pattern built from a wildcard-free literal matches exactly the
strings containing the literal. -/
theorem likeMatch_full (lit : List Char) (hw : ∀ c ∈ lit, c ≠ '%' ∧ c ≠ '_')
    (s : List Char) : likeMatch ('%' :: (lit ++ ['%'])) s = occursIn lit s := by
  rw [show likeMatch ('%' :: (lit ++ ['%'])) s = anySuffix (likeMatch (lit ++ ['%'])) s from by
    simp [likeMatch]]
  rw [anySuffix_congr (likeMatch_lit lit hw) s]
  rfl

theorem prefixCh_iff : ∀ p s : List Char, prefixCh p s = true ↔ ∃ t, s = p ++ t := by
  intro p
  induction p with
  | nil =>
    intro s
    simp [prefixCh]
  | cons a ps ih =>
    intro s
    cases s with
    | nil => simp [prefixCh]
    | cons b tl =>
      rw [show prefixCh (a :: ps) (b :: tl) = ((a == b) && prefixCh ps tl) from rfl]
      rw [Bool.and_eq_true, beq_iff_eq, ih tl]
      constructor
      · rintro ⟨rfl, t, rfl⟩
        exact ⟨t, rfl⟩
      · rintro ⟨t, heq⟩
        rw [List.cons_append] at heq
        injection heq with h1 h2
        exact ⟨h1.symm, t, h2⟩

theorem anySuffix_iff (f : List Char → Bool) : ∀ s : List Char,
    anySuffix f s = true ↔ ∃ l r, s = l ++ r ∧ f r = true := by
  intro s
  induction s with
  | nil =>
    constructor
    · intro h
      exact ⟨[], [], rfl, h⟩
    · rintro ⟨l, r, heq, hf⟩
      obtain ⟨hl, hr⟩ := List.append_eq_nil.mp heq.symm
      subst hr
      simpa [anySuffix] using hf
  | cons c tl ih =>
    rw [show anySuffix f (c :: tl) = (f (c :: tl) || anySuffix f tl) from rfl,
      Bool.or_eq_true, ih]
    constructor
    · rintro (h | ⟨l, r, rfl, hf⟩)
      · exact ⟨[], c :: tl, rfl, h⟩
      · exact ⟨c :: l, r, rfl, hf⟩
    · rintro ⟨l, r, heq, hf⟩
      cases l with
      | nil =>
        left
        rw [List.nil_append] at heq
        rw [heq]
        exact hf
      | cons x xs =>
        right
        rw [List.cons_append] at heq
        injection heq with h1 h2
        exact ⟨xs, r, h2, hf⟩

/-- Executable substring occurrence agrees with the decomposition form. -/
theorem occursIn_iff (p s : List Char) :
    occursIn p s = true ↔ ∃ l r, s = l ++ p ++ r := by
  unfold occursIn
  rw [anySuffix_iff]
  constructor
  · rintro ⟨l, r, rfl, hf⟩
    obtain ⟨t, rfl⟩ := (prefixCh_iff p r).mp hf
    exact ⟨l, t, by simp⟩
  · rintro ⟨l, r, rfl⟩
    exact ⟨l, p ++ r, by simp, (prefixCh_iff p (p ++ r)).mpr ⟨r, rfl⟩⟩

theorem lowerSub_iff (x s : String) :
    lowerSub x s ↔ occursIn (lowerList x) (lowerList s) = true :=
  (occursIn_iff (lowerList x) (lowerList s)).symm

/-- For a wildcard-free query, `ILIKE '%q%'` on a non-NULL column is
case-insensitive substring containment. -/
theorem fieldIlike_some_iff (x s : String)
    (hw : ∀ c ∈ lowerList x, c ≠ '%' ∧ c ≠ '_') :
    fieldIlike x (some s) = true ↔ lowerSub x s := by
  rw [show fieldIlike x (some s) =
      likeMatch ('%' :: (lowerList x ++ ['%'])) (lowerList s) from rfl]
  rw [likeMatch_full (lowerList x) hw (lowerList s)]
  exact (lowerSub_iff x s).symm

/-- For a wildcard-free query, the code's row predicate is the spec's. -/
theorem personMatchesQ_iff_spec (x : String) (p : Person)
    (hw : ∀ c ∈ lowerList x, c ≠ '%' ∧ c ≠ '_') :
    personMatchesQ x p = true ↔ specMatchesQ x p := by
  have hopt : ∀ o : Option String, (fieldIlike x o = true ↔ lowerSubOpt x o) := by
    intro o
    cases o with
    | none => simp [fieldIlike, lowerSubOpt]
    | some s => simpa [lowerSubOpt] using fieldIlike_some_iff x s hw
  unfold personMatchesQ specMatchesQ
  rw [Bool.or_eq_true, Bool.or_eq_true, or_assoc]
  exact or_congr (fieldIlike_some_iff x p.name hw) (or_congr (hopt _) (hopt _))

/-- C8 (counterexample): the filter string `_` is an SQL `LIKE` wildcard:
person "ab" — whose fields contain no underscore — is returned by the
filter, so the listing is not "exactly the persons whose name,
organization, or notes contain the filter as a substring". -/
theorem c8_counterexample :
    indexFiltered "_" [mkPerson 1 "ab" none none none 0] =
      [mkPerson 1 "ab" none none none 0] ∧
    ¬ specMatchesQ "_" (mkPerson 1 "ab" none none none 0) := by
  constructor
  · decide
  · intro h
    rcases h with h | h | h
    · rw [lowerSub_iff] at h
      revert h
      decide
    · simp [mkPerson, lowerSubOpt] at h
    · simp [mkPerson, lowerSubOpt] at h

/-- C8 (amended): an empty (or all-whitespace) filter returns all persons;
filtering never reorders (the result is a sublist); and for every filter
string free of the SQL `LIKE` wildcards `%` and `_`, the rows returned are
exactly the persons whose name, organization, or notes contain the stripped
filter as a case-insensitive substring (for strings with wildcards the
`ILIKE` pattern semantics of `likeMatch` apply instead). -/
theorem c8_filter (q : String) (people : List Person)
    (hw : ∀ c ∈ lowerList (pyStrip q), c ≠ '%' ∧ c ≠ '_') :
    (pyStrip q = "" → indexFiltered q people = people) ∧
    (indexFiltered q people).Sublist people ∧
    (pyStrip q ≠ "" → ∀ p : Person,
      p ∈ indexFiltered q people ↔ p ∈ people ∧ specMatchesQ (pyStrip q) p) := by
  refine ⟨?_, ?_, ?_⟩
  · intro h
    unfold indexFiltered
    rw [if_pos h]
  · unfold indexFiltered
    by_cases h : pyStrip q = ""
    · rw [if_pos h]
    · rw [if_neg h]
      exact List.filter_sublist _
  · intro hne p
    unfold indexFiltered
    rw [if_neg hne, List.mem_filter]
    exact and_congr_right fun _ => personMatchesQ_iff_spec (pyStrip q) p hw

/-- C8 at a concrete input: the filter "Ab" returns person "xAby" (match is
case-insensitive and ignores surrounding text). -/
theorem c8_filter_witness :
    (∀ c ∈ lowerList (pyStrip "Ab"), c ≠ '%' ∧ c ≠ '_') ∧
    (mkPerson 1 "xAby" none none none 0 ∈
        indexFiltered "Ab" [mkPerson 1 "xAby" none none none 0] ↔
      mkPerson 1 "xAby" none none none 0 ∈ [mkPerson 1 "xAby" none none none 0] ∧
        specMatchesQ (pyStrip "Ab") (mkPerson 1 "xAby" none none none 0)) :=
  ⟨by decide,
    (c8_filter "Ab" [mkPerson 1 "xAby" none none none 0] (by decide)).2.2 (by decide)
      (mkPerson 1 "xAby" none none none 0)⟩

end PeopleWiki
